import Mathlib

/-!
Threaded file transfer: chunk plan, wire header, part files and merge.

A shallow embedding of `src/server.cpp` (`DownloadServer::run`,
`DownloadServer::sendFile`) and `src/client.cpp`
(`DownloadClient::handleConnection`, `DownloadClient::mergeFiles`).

Conventions of the embedding.
* A C++ `char` is a Lean `Char`; a buffer or a `std::string` is a `List Char`.
* `int` values are `Int`; `size_t` and `uintmax_t` values are `Nat` below `2^64`,
  and every operation that can wrap is written with an explicit `% 2^64`.
* A socket is a script: the list of the outcomes of the successive `recv`
  (or `send`) calls. A `recv` made after the script is used up returns `0`
  (the peer has closed); a `send` made after it fails with `WSAECONNRESET`.
* A file is its content; files that exist can be opened and read.
* Code that throws returns a report value naming the exception.
-/

namespace ThreadedFileTransfer

deriving instance DecidableEq for Except

/-! ## Machine integers -/

/-- The number of values of a 64-bit `size_t` / `uintmax_t`. -/
def U64 : Nat := 2 ^ 64

/-- Conversion of an `int` to `uintmax_t` (usual arithmetic conversions). -/
def toU64 (x : Int) : Nat := (x % (2 ^ 64 : Int)).toNat

/-- Unsigned 64-bit subtraction `a - b` of two values below `2^64`: the
difference, or its wrap-around when `a < b`. -/
def subU64 (a b : Nat) : Nat := if b ≤ a then a - b else (a + U64 - b) % U64

/-- Signed 32-bit wrap-around, used for `totalThreads - 1`. -/
def wrapInt (x : Int) : Int := (x + 2 ^ 31) % 2 ^ 32 - 2 ^ 31

/-! ## Chunk plan (`DownloadServer::run`, lines 269-277; `sendFile`, lines 46-52) -/

/-- `params.position = threadId * (fileSize / totalThreads)` of `run`, computed
in `uintmax_t`. The value is kept as the 64-bit pattern that the `std::streampos`
stores; `fileSize - position` converts it back to the same pattern.
`totalThreads` must not convert to `0` (the division is then undefined, see
`handleMessage`). -/
def position (fileSize : Nat) (threadId totalThreads : Int) : Nat :=
  (toU64 threadId * (fileSize / toU64 totalThreads)) % U64

/-- `params.bytesToSend` as computed by `run` (lines 273-277). -/
def runBytesToSend (fileSize : Nat) (threadId totalThreads : Int) : Nat :=
  if threadId = wrapInt (totalThreads - 1) then
    subU64 fileSize (position fileSize threadId totalThreads)
  else
    fileSize / toU64 totalThreads

/-- `bytesToSend` as recomputed by `sendFile` (lines 47-52) from the file size
and `params.position`; this is the length announced in the header. -/
def bytesToSend (fileSize : Nat) (pos : Nat) (threadId totalThreads : Int) : Nat :=
  if threadId = wrapInt (totalThreads - 1) then
    subU64 fileSize pos
  else
    fileSize / toU64 totalThreads

/-- Offset of worker `i` of `n` in the server's chunk plan. -/
def offset (fileSize n i : Nat) : Nat := position fileSize (i : Int) (n : Int)

/-- Length of worker `i` of `n` in the server's chunk plan (the value sent in
the header). -/
def length (fileSize n i : Nat) : Nat :=
  bytesToSend fileSize (offset fileSize n i) (i : Int) (n : Int)

/-! ## Strings and the standard conversions -/

/-- Exceptions of the standard library raised by `std::stoi`, `std::stoull` and
`std::string::substr`; every one is caught as `std::exception`. -/
inductive Exn where
  | invalid_argument
  | out_of_range
  deriving DecidableEq, Repr

/-- `std::string::npos`. -/
def npos : Nat := U64 - 1

/-- Search for `pat` in a suffix whose first character has index `i`. -/
def findAux (pat : List Char) : List Char → Nat → Option Nat
  | [], i => if pat = [] then some i else none
  | c :: cs, i => if pat.isPrefixOf (c :: cs) then some i else findAux pat cs (i + 1)

/-- `s.find(pat, start)`; `none` stands for `npos`. -/
def find (s pat : List Char) (start : Nat) : Option Nat :=
  if s.length < start then none else findAux pat (s.drop start) start

/-- The `size_t` value of a `find` result. -/
def sizeT : Option Nat → Nat
  | some i => i
  | none => npos

/-- `s.substr(pos, len)`: throws `std::out_of_range` when `pos > s.size()`. -/
def substr (s : List Char) (pos len : Nat) : Except Exn (List Char) :=
  if s.length < pos then .error .out_of_range else .ok ((s.drop pos).take len)

/-- `isspace` in the "C" locale. -/
def isspace (c : Char) : Bool :=
  c = ' ' || c = '\t' || c = '\n' || c = '\r' || c.toNat = 11 || c.toNat = 12

/-- Value of a decimal digit character. -/
def digitVal (c : Char) : Nat := c.toNat - 48

/-- Value of a run of decimal digits. -/
def digitsValue (ds : List Char) : Nat := ds.foldl (fun acc c => 10 * acc + digitVal c) 0

/-- Front end of `strtol` / `strtoull` in base 10: skip white space, read an
optional sign, take the longest run of digits. Returns whether the sign is `-`
and the digits. -/
def scanInteger (s : List Char) : Bool × List Char :=
  match s.dropWhile isspace with
  | '-' :: r => (true, r.takeWhile Char.isDigit)
  | '+' :: r => (false, r.takeWhile Char.isDigit)
  | r => (false, r.takeWhile Char.isDigit)

/-- `std::stoi(s)`: `invalid_argument` when no digit can be read, `out_of_range`
when the value does not fit an `int`; characters after the digits are ignored. -/
def stoi (s : List Char) : Except Exn Int :=
  let r := scanInteger s
  if r.2 = [] then .error .invalid_argument
  else
    let v : Int := if r.1 then -(digitsValue r.2 : Int) else (digitsValue r.2 : Int)
    if v < -(2 ^ 31) ∨ 2 ^ 31 ≤ v then .error .out_of_range else .ok v

/-- `std::stoull(s)`: as `stoi`, with the range of `unsigned long long`; a `-`
sign negates modulo `2^64`. -/
def stoull (s : List Char) : Except Exn Nat :=
  let r := scanInteger s
  if r.2 = [] then .error .invalid_argument
  else if U64 ≤ digitsValue r.2 then .error .out_of_range
  else .ok (if r.1 then (U64 - digitsValue r.2) % U64 else digitsValue r.2)

/-- Character of a decimal digit. -/
def digitChar (d : Nat) : Char := Char.ofNat (48 + d)

/-- The decimal digits of `n`, most significant first, put in front of `acc`;
`fuel` bounds the number of digits. -/
def toDigits : Nat → Nat → List Char → List Char
  | 0, _, acc => acc
  | fuel + 1, n, acc =>
    if n < 10 then digitChar n :: acc
    else toDigits fuel (n / 10) (digitChar (n % 10) :: acc)

/-- `std::to_string(n)` for an unsigned `n`. -/
def to_string (n : Nat) : List Char := toDigits (n + 1) n []

/-! ## Server dispatcher (`DownloadServer::run`, lines 238-280) -/

/-- The files the server can see: the content of each existing path. -/
abbrev Files := List Char → Option (List Char)

/-- The `ThreadParams` handed to `sendFile` (without the socket). -/
structure ThreadParams where
  threadId : Int
  totalThreads : Int
  filename : List Char
  position : Nat
  bytesToSend : Nat
  deriving DecidableEq, Repr

/-- Why `run` closed a connection before spawning a worker. -/
inductive CloseReason where
  | invalidFormat
  | parseFailed (e : Exn)
  | fileNotFound
  deriving DecidableEq, Repr

/-- What `run` does with one received request message. -/
inductive Dispatch where
  /-- `closesocket(connectionFd); continue;`: nothing was sent, no thread was started. -/
  | closed (why : CloseReason)
  /-- `std::thread(&DownloadServer::sendFile, this, params).detach()`. -/
  | spawned (params : ThreadParams)
  /-- `fileSize / params.totalThreads` with a zero divisor: undefined behaviour,
  the process faults. -/
  | divisionByZero
  deriving DecidableEq, Repr

/-- The three `substr` / `stoi` calls of the `try` block (lines 252-255). -/
def parseFields (message : List Char) (pos1 pos2 : Nat) :
    Except Exn (Int × Int × List Char) := do
  let threadId ← (substr message 0 pos1) >>= stoi
  let totalThreads ← (substr message ((pos1 + 1) % U64) (subU64 (subU64 pos2 pos1) 1)) >>= stoi
  let filename ← substr message ((pos2 + 1) % U64) npos
  pure (threadId, totalThreads, filename)

/-- Lines 238-280 of `run`: parse the message, check the file, compute the
chunk plan, start the worker. -/
def handleMessage (files : Files) (message : List Char) : Dispatch :=
  let pos1 := find message [','] 0
  let pos2 := find message [','] ((sizeT pos1 + 1) % U64)
  if pos1 = none ∨ pos2 = none then .closed .invalidFormat
  else
    match parseFields message (sizeT pos1) (sizeT pos2) with
    | .error e => .closed (.parseFailed e)
    | .ok (threadId, totalThreads, filename) =>
      match files filename with
      | none => .closed .fileNotFound
      | some content =>
        if toU64 totalThreads = 0 then .divisionByZero
        else .spawned
          { threadId := threadId, totalThreads := totalThreads, filename := filename,
            position := position content.length threadId totalThreads,
            bytesToSend := runBytesToSend content.length threadId totalThreads }

/-- The accept loop of `run` over the request messages of successive
connections: each connection is dispatched in turn; a fault ends the process. -/
def run (files : Files) : List (List Char) → List Dispatch
  | [] => []
  | message :: more =>
    match handleMessage files message with
    | .divisionByZero => [.divisionByZero]
    | d => d :: run files more

/-! ## Server transfer worker (`DownloadServer::sendFile`) -/

/-- `WSAEWOULDBLOCK`. -/
def WSAEWOULDBLOCK : Nat := 10035

/-- `WSAETIMEDOUT`. -/
def WSAETIMEDOUT : Nat := 10060

/-- `WSAECONNRESET`, the error of a `send` made after the script is used up. -/
def WSAECONNRESET : Nat := 10054

/-- Outcome of one `send` call: the value returned and `WSAGetLastError()`. -/
structure SendResult where
  ret : Int
  lastError : Nat
  deriving DecidableEq, Repr

/-- What the server worker prints when it ends. -/
inductive SendReport where
  /-- "Thread N completed. Sent totalSent/bytesToSend bytes" (line 107). -/
  | completed (totalSent bytesToSend : Nat)
  /-- "Thread N error: File does not exist". -/
  | fileDoesNotExist
  /-- "Thread N error: Header send failed". -/
  | headerSendFailed
  /-- "Thread N error: Data send failed", with the socket error. -/
  | dataSendFailed (wsa : Nat)
  /-- The division `fileSize / totalThreads` of line 51 with a zero divisor. -/
  | divisionByZero
  deriving DecidableEq, Repr

/-- The inner loop of lines 86-98: send `block` until every byte of it is
written. Returns the rest of the script and the bytes put on the wire; when the
exception is thrown, the socket error and the bytes that the earlier `send`
calls have already put on the wire. -/
def sendBlock (block : List Char) :
    List SendResult → Nat → List Char →
      Except (Nat × List Char) (List SendResult × List Char)
  | [], bytesWritten, wire =>
    if bytesWritten < block.length then .error (WSAECONNRESET, wire) else .ok ([], wire)
  | r :: rs, bytesWritten, wire =>
    if bytesWritten < block.length then
      let bytesSent := min r.ret ((block.length - bytesWritten : Nat) : Int)
      if bytesSent ≤ 0 then
        if r.lastError = WSAEWOULDBLOCK then sendBlock block rs bytesWritten wire
        else .error (r.lastError, wire)
      else
        sendBlock block rs (bytesWritten + bytesSent.toNat)
          (wire ++ (block.drop bytesWritten).take bytesSent.toNat)
    else .ok (r :: rs, wire)

/-- The loop of lines 76-105. `avail` is the file content from the read
position on; a `file.read` delivers at most `chunkSize` bytes of it. Returns
`totalSent` and the payload bytes put on the wire; when the exception is
thrown, the socket error and the payload bytes put on the wire before it. -/
def sendLoop (script : List SendResult) (avail : List Char) (remaining totalSent : Nat)
    (wire : List Char) : Except (Nat × List Char) (Nat × List Char) :=
  if 0 < remaining then
    let chunkSize := min 8192 remaining
    let block := avail.take chunkSize
    if block.length = 0 then .ok (totalSent, wire)
    else
      match sendBlock block script 0 wire with
      | .error e => .error e
      | .ok (script', wire') =>
        sendLoop script' (avail.drop block.length) (remaining - block.length)
          (totalSent + block.length) wire'
  else .ok (totalSent, wire)
termination_by remaining
decreasing_by
  rename_i hpos hlen
  have hne : (avail.take (min 8192 remaining)).length ≠ 0 := hlen
  omega

/-- `DownloadServer::sendFile`: the report printed and the payload bytes put on
the connection after the header, on every path (also when a later `send`
fails). `file.seekg(position)` fails for a position that is negative as a
`std::streamoff`, and every read then delivers nothing. -/
def sendFile (files : Files) (script : List SendResult) (params : ThreadParams) :
    SendReport × List Char :=
  match files params.filename with
  | none => (.fileDoesNotExist, [])
  | some content =>
    if params.threadId ≠ wrapInt (params.totalThreads - 1) ∧ toU64 params.totalThreads = 0 then
      (.divisionByZero, [])
    else
      let toSend := bytesToSend content.length params.position params.threadId params.totalThreads
      let avail := if params.position < 2 ^ 63 then content.drop params.position else []
      match script with
      | [] => (.headerSendFailed, [])
      | r :: rs =>
        if r.ret = -1 then (.headerSendFailed, [])
        else
          match sendLoop rs avail toSend 0 [] with
          | .error (wsa, wire) => (.dataSendFailed wsa, wire)
          | .ok (totalSent, wire) => (.completed totalSent toSend, wire)

/-! ## Client transfer worker (`DownloadClient::handleConnection`, lines 76-191) -/

/-- Outcome of one `recv` call: the bytes delivered (none: the peer closed, the
call returns `0`), or `SOCKET_ERROR` with the value of `WSAGetLastError()`. A
call that asks for `k` bytes gets at most the first `k` of `bytes`. -/
inductive Recv where
  | data (bytes : List Char)
  | error (wsa : Nat)
  deriving DecidableEq, Repr

/-- What the client worker prints when it ends. -/
inductive ClientReport where
  /-- "Thread N completed. Received totalReceived/expectedSize bytes". -/
  | completed (totalReceived expectedSize : Nat)
  /-- "Incomplete transfer: received totalReceived of expectedSize bytes". -/
  | incomplete (totalReceived expectedSize : Nat)
  /-- "Transfer error", with the socket error. -/
  | transferError (wsa : Nat)
  /-- "Failed to receive header". -/
  | headerReceiveFailed
  /-- An exception of `stoull` or `substr` while parsing the header. -/
  | headerInvalid (e : Exn)
  /-- "Cannot create output file". -/
  | cannotCreateOutput
  deriving DecidableEq, Repr

/-- Result of the header loop. -/
structure Header where
  expectedSize : Nat
  partFilename : List Char
  /-- The content of `headerBuffer` after the `erase` of line 111. -/
  headerBuffer : List Char
  /-- What is left of the `recv` script. -/
  script : List Recv
  deriving DecidableEq, Repr

/-- Lines 101-111: parse `headerStr`, whose first newline is at `endOfHeader`. -/
def parseHeader (headerStr : List Char) (endOfHeader : Nat) :
    Except Exn (Nat × List Char × List Char) := do
  let sizeStart := (sizeT (find headerStr ['S', 'I', 'Z', 'E', ':'] 0) + 5) % U64
  let sizeEnd := sizeT (find headerStr [':'] sizeStart)
  let expectedSize ← (substr headerStr sizeStart (subU64 sizeEnd sizeStart)) >>= stoull
  let filenameStart :=
    (sizeT (find headerStr ['F', 'I', 'L', 'E', 'N', 'A', 'M', 'E', ':'] 0) + 9) % U64
  let partFilename ← substr headerStr filenameStart (subU64 endOfHeader filenameStart)
  pure (expectedSize, partFilename, headerStr.drop (endOfHeader + 1))

/-- The header loop of lines 84-113, started with the bytes accumulated so far. -/
def headerLoop : List Recv → List Char → Except ClientReport Header
  | [], _ => .error .headerReceiveFailed
  | .error _ :: _, _ => .error .headerReceiveFailed
  | .data bytes :: rest, acc =>
    if bytes.take 1024 = [] then .error .headerReceiveFailed
    else
      let headerBuffer := acc ++ bytes.take 1024
      match find headerBuffer ['\n'] 0 with
      | none => headerLoop rest headerBuffer
      | some endOfHeader =>
        match parseHeader headerBuffer endOfHeader with
        | .error e => .error (.headerInvalid e)
        | .ok (expectedSize, partFilename, remaining) =>
          .ok { expectedSize := expectedSize, partFilename := partFilename,
                headerBuffer := remaining, script := rest }

/-- State of the receive loop when it is left. -/
structure Received where
  /-- `none`: the loop condition became false; `some e`: "Transfer error" was thrown. -/
  thrown : Option Nat
  totalReceived : Nat
  /-- The bytes written to the part file. -/
  written : List Char
  deriving DecidableEq, Repr

/-- The receive loop of lines 145-169. -/
def receiveLoop (expectedSize : Nat) : List Recv → Nat → List Char → Received
  | [], totalReceived, written => ⟨none, totalReceived, written⟩
  | .data bytes :: rest, totalReceived, written =>
    if totalReceived < expectedSize then
      let got := bytes.take (min 1024 (expectedSize - totalReceived))
      if got = [] then ⟨none, totalReceived, written⟩
      else receiveLoop expectedSize rest (totalReceived + got.length) (written ++ got)
    else ⟨none, totalReceived, written⟩
  | .error wsa :: rest, totalReceived, written =>
    if totalReceived < expectedSize then
      if wsa = WSAETIMEDOUT then receiveLoop expectedSize rest totalReceived written
      else ⟨some wsa, totalReceived, written⟩
    else ⟨none, totalReceived, written⟩

/-- Lines 171-181: the report made once the receive loop is left. -/
def verifyTransfer (expectedSize : Nat) (r : Received) : ClientReport :=
  match r.thrown with
  | some wsa => .transferError wsa
  | none =>
    if r.totalReceived ≠ expectedSize then .incomplete r.totalReceived expectedSize
    else .completed r.totalReceived expectedSize

/-- What a client worker leaves behind. -/
structure WorkerResult where
  report : ClientReport
  /-- The name parsed from the header, when the header was parsed. -/
  partFilename : Option (List Char)
  /-- The part file on disk: `none` when it was never created. No path of
  `handleConnection` removes it. -/
  partFile : Option (List Char)
  deriving DecidableEq, Repr

/-- `DownloadClient::handleConnection` from the header loop on (lines 76-191).
`canCreate` tells whether the part file can be opened for writing. -/
def handleConnection (canCreate : Bool) (script : List Recv) : WorkerResult :=
  match headerLoop script [] with
  | .error report => ⟨report, none, none⟩
  | .ok h =>
    if canCreate then
      let r := receiveLoop h.expectedSize h.script h.headerBuffer.length h.headerBuffer
      ⟨verifyTransfer h.expectedSize r, some h.partFilename, some r.written⟩
    else ⟨.cannotCreateOutput, some h.partFilename, none⟩

/-- The header the server sends (lines 64-65). -/
def header (bytesToSend : Nat) (filename : List Char) : List Char :=
  ['S', 'I', 'Z', 'E', ':'] ++ to_string bytesToSend ++
    [':', 'F', 'I', 'L', 'E', 'N', 'A', 'M', 'E', ':'] ++ filename ++ ['\n']

/-! ## Reassembly (`DownloadClient::mergeFiles`) -/

/-- The download directory: the final file and the part files, by worker index
(part `i` is the file `<outputDir>/<baseName>.part<i>`; these names are pairwise
different and differ from the name of the final file). -/
structure DownloadDir where
  final : Option (List Char)
  parts : Nat → Option (List Char)

/-- The `std::ofstream output`: what has been written, and its `failbit`. -/
structure OutStream where
  content : List Char
  failbit : Bool
  deriving DecidableEq, Repr

/-- `output << partFile.rdbuf()` (line 247), the stream-buffer inserter of
`std::basic_ostream` ([ostream.inserters]): its sentry fails when the stream is
not good, and nothing is written; "if the function inserts no characters, it
calls `setstate(failbit)`", which is the case for an empty part file. No
exception mask is set on `output`, so nothing is thrown. -/
def insertRdbuf (output : OutStream) (part : List Char) : OutStream :=
  if output.failbit then output
  else if part = [] then { output with failbit := true }
  else { output with content := output.content ++ part }

/-- What `mergeFiles` prints. -/
inductive MergeReport where
  /-- "File successfully downloaded and merged". -/
  | success
  /-- "Error merging files: Missing part file: ...part<i>". -/
  | missingPart (i : Nat)
  /-- "Error merging files: Cannot create output file". -/
  | cannotCreateOutput
  deriving DecidableEq, Repr

/-- The loop of lines 235-252, with `count` iterations left, at index `i`. -/
def mergeLoop : Nat → Nat → (Nat → Option (List Char)) → OutStream →
    MergeReport × (Nat → Option (List Char)) × OutStream
  | 0, _, parts, output => (.success, parts, output)
  | count + 1, i, parts, output =>
    match parts i with
    | none => (.missingPart i, parts, output)
    | some part =>
      mergeLoop count (i + 1) (fun j => if j = i then none else parts j)
        (insertRdbuf output part)

/-- `DownloadClient::mergeFiles`. Opening `output` truncates the final file
before any part is looked at; the stream is closed (by `close` or by its
destructor) on every path. `canOpen` tells whether `output` can be opened. -/
def mergeFiles (threadCount : Int) (canOpen : Bool) (dir : DownloadDir) :
    MergeReport × DownloadDir :=
  if canOpen then
    let r := mergeLoop threadCount.toNat 0 dir.parts ⟨[], false⟩
    (r.1, { final := some r.2.2.content, parts := r.2.1 })
  else (.cannotCreateOutput, dir)

/-- The part files left by `threadCount` workers that each stored exactly its
range of `source`. -/
def partsOf (source : List Char) (threadCount : Nat) : Nat → Option (List Char) :=
  fun i =>
    if i < threadCount then
      some ((source.drop (offset source.length threadCount i)).take
        (length source.length threadCount i))
    else none

/-- The request the client worker sends (lines 66-68), for a worker index and
a worker count that are not negative. -/
def request (threadId threadCount : Nat) (filename : List Char) : List Char :=
  to_string threadId ++ ',' :: (to_string threadCount ++ ',' :: filename)

/-! ## Comma-separated fields of a request, as the specification names them -/

/-- The first comma-separated field of a message. -/
def firstField (message : List Char) : List Char := message.takeWhile (fun c => c != ',')

/-- What follows the first comma of a message. -/
def afterFirst (message : List Char) : List Char :=
  (message.dropWhile (fun c => c != ',')).drop 1

/-- The second comma-separated field of a message. -/
def secondField (message : List Char) : List Char := firstField (afterFirst message)

/-! ## Request-read loop of the dispatcher (`DownloadServer::run`, lines 194-227) -/

/-- `WSAENOTSOCK`, the error of a socket call on a descriptor that has been
closed with `closesocket`. -/
def WSAENOTSOCK : Nat := 10038

/-- Outcome of one `recv` on the open connection, with the reading of the
steady clock (milliseconds since `startTime`) that the would-block branch takes. -/
structure RequestRecv where
  outcome : Recv
  elapsed : Nat
  deriving DecidableEq, Repr

/-- State of the request-read loop at the head of an iteration
(`receivedComplete` is false and `bytesReceived` is 0 there). -/
structure ReadState where
  /-- Outcomes of the `recv` calls still to come on the open connection. -/
  script : List RequestRecv
  /-- Whether `closesocket(connectionFd)` has been called inside the loop. -/
  closed : Bool
  /-- Number of `recv` calls made on the closed descriptor so far. -/
  recvOnClosed : Nat
  deriving DecidableEq, Repr

/-- What one iteration of the `while (!receivedComplete)` loop does. -/
inductive ReadStep where
  /-- `continue`: the condition is evaluated again, holds, and `recv` is called again. -/
  | again (s : ReadState)
  /-- `receivedComplete = true`: the loop is left with the message received. -/
  | complete (message : List Char)
  /-- `break`: the peer closed, the loop is left with `bytesReceived == 0`. -/
  | broke
  deriving DecidableEq, Repr

/-- One iteration of the loop of lines 198-227. A `recv` on the closed
descriptor returns `SOCKET_ERROR` with `WSAENOTSOCK`, which is the branch of
lines 220-225; the `continue` of lines 216, 219 and 224 is the `continue` of
this `while`, the innermost enclosing loop. -/
def readStep (s : ReadState) : ReadStep :=
  if s.closed then
    .again { s with recvOnClosed := s.recvOnClosed + 1 }
  else
    match s.script with
    | [] => .broke
    | r :: rest =>
      match r.outcome with
      | .data bytes =>
        if bytes.take 4095 = [] then .broke else .complete (bytes.take 4095)
      | .error wsa =>
        if wsa = WSAEWOULDBLOCK then
          if 3000 < r.elapsed then
            .again { script := rest, closed := true, recvOnClosed := s.recvOnClosed }
          else
            .again { script := rest, closed := false, recvOnClosed := s.recvOnClosed }
        else
          .again { script := rest, closed := true, recvOnClosed := s.recvOnClosed }

/-- The loop after at most `n` iterations: `again s` says that the loop is
still running after `n` iterations, in state `s`. -/
def readLoop : Nat → ReadState → ReadStep
  | 0, s => .again s
  | n + 1, s =>
    match readStep s with
    | .again next => readLoop n next
    | .complete message => .complete message
    | .broke => .broke

/-- The loop as entered after `accept`, on a connection with the given outcomes. -/
def readRequest (n : Nat) (script : List RequestRecv) : ReadStep :=
  readLoop n { script := script, closed := false, recvOnClosed := 0 }

/-! ## Connect with retries (`DownloadClient::handleConnection`, lines 50-63) -/

/-- State of the client worker when the retry loop is left. -/
structure Connect where
  /-- The value of `retries`. -/
  retries : Int
  /-- Number of `connect` calls made. -/
  attempts : Nat
  /-- Whether the last `connect` call succeeded (the loop was left by `break`). -/
  connected : Bool
  deriving DecidableEq, Repr

/-- The loop of lines 52-57, entered with a value of `retries` that is not
negative, `attempt` calls having been made; `outcomes k` tells whether the
`connect` call number `k` (from 0) succeeds. The condition `retries-- > 0`
compares and then decrements. -/
def connectLoop (outcomes : Nat → Bool) : Nat → Nat → Connect
  | 0, attempt => { retries := -1, attempts := attempt, connected := false }
  | retries + 1, attempt =>
    if outcomes attempt then
      { retries := (retries : Int), attempts := attempt + 1, connected := true }
    else connectLoop outcomes retries (attempt + 1)

/-- How the connect phase ends. -/
inductive ConnectReport where
  /-- "Connection failed after retries" is thrown (lines 59-63). -/
  | failedAfterRetries
  /-- The worker goes on to send the request (line 66). -/
  | sendsRequest
  deriving DecidableEq, Repr

/-- Lines 50-63: `int retries = 3`, the loop, and the test `retries < 0`. -/
def connectWithRetries (outcomes : Nat → Bool) : ConnectReport × Connect :=
  let c := connectLoop outcomes 3 0
  if c.retries < 0 then (.failedAfterRetries, c) else (.sendsRequest, c)

/-! ## Chunk plan: arithmetic -/

theorem toU64_natCast (n : Nat) (h : n < 2 ^ 64) : toU64 (n : Int) = n := by
  unfold toU64
  have h2 : ((n : Int)) % (2 ^ 64 : Int) = (n : Int) := by
    apply Int.emod_eq_of_lt
    · exact Int.ofNat_nonneg n
    · exact_mod_cast h
  rw [h2]
  exact Int.toNat_natCast n

theorem wrapInt_pred (n : Nat) (h1 : 1 ≤ n) (h : n < 2 ^ 31) :
    wrapInt ((n : Int) - 1) = (n : Int) - 1 := by
  unfold wrapInt
  have h2 : ((n : Int) - 1 + 2 ^ 31) % 2 ^ 32 = (n : Int) - 1 + 2 ^ 31 := by
    apply Int.emod_eq_of_lt <;> omega
  rw [h2]
  ring

theorem offset_eq (fileSize n i : Nat) (hsize : fileSize < 2 ^ 64) (hn : n < 2 ^ 31)
    (hi : i < n) : offset fileSize n i = i * (fileSize / n) := by
  unfold offset position
  rw [toU64_natCast i (by omega), toU64_natCast n (by omega)]
  apply Nat.mod_eq_of_lt
  have h1 : i * (fileSize / n) ≤ n * (fileSize / n) := Nat.mul_le_mul_right _ (le_of_lt hi)
  have h2 : n * (fileSize / n) ≤ fileSize := Nat.mul_div_le fileSize n
  unfold U64
  omega

theorem offset_le (fileSize n i : Nat) (hsize : fileSize < 2 ^ 64) (hn : n < 2 ^ 31)
    (hi : i < n) : offset fileSize n i + fileSize / n ≤ fileSize := by
  rw [offset_eq fileSize n i hsize hn hi]
  have h1 : (i + 1) * (fileSize / n) ≤ n * (fileSize / n) := Nat.mul_le_mul_right _ hi
  have h2 : n * (fileSize / n) ≤ fileSize := Nat.mul_div_le fileSize n
  have h3 : (i + 1) * (fileSize / n) = i * (fileSize / n) + fileSize / n := by ring
  omega

theorem length_eq (fileSize n i : Nat) (hsize : fileSize < 2 ^ 64) (hn : n < 2 ^ 31)
    (hi : i < n) :
    length fileSize n i =
      if i = n - 1 then fileSize - offset fileSize n i else fileSize / n := by
  have hle := offset_le fileSize n i hsize hn hi
  have hq0 := Nat.zero_le (fileSize / n)
  unfold length bytesToSend
  rw [wrapInt_pred n (by omega) hn, toU64_natCast n (by omega)]
  by_cases h : i = n - 1
  · have h2 : (i : Int) = (n : Int) - 1 := by omega
    rw [if_pos h2, if_pos h]
    unfold subU64
    rw [if_pos (by omega)]
  · have h2 : ¬ (i : Int) = (n : Int) - 1 := by omega
    rw [if_neg h2, if_neg h]

/-- C1: for every file size below `2^64` and every worker count `n ≥ 1` (an
`int`), the server's chunk plan has `offset i = i * (fileSize / n)`, the length
`fileSize - offset i` for the last worker and `fileSize / n` for the others; the
length that `run` stores is the one `sendFile` announces; the ranges are laid
end to end from `0` to `fileSize`; and every byte position below `fileSize` lies
in the range of exactly one worker. -/
theorem chunk_plan_partitions (fileSize n : Nat) (hsize : fileSize < 2 ^ 64)
    (hn : 1 ≤ n) (hint : n < 2 ^ 31) :
    (∀ i, i < n → offset fileSize n i = i * (fileSize / n)) ∧
    (∀ i, i < n → length fileSize n i =
      if i = n - 1 then fileSize - offset fileSize n i else fileSize / n) ∧
    (∀ i, i < n → runBytesToSend fileSize (i : Int) (n : Int) = length fileSize n i) ∧
    offset fileSize n 0 = 0 ∧
    (∀ i, i + 1 < n → offset fileSize n (i + 1) = offset fileSize n i + length fileSize n i) ∧
    offset fileSize n (n - 1) + length fileSize n (n - 1) = fileSize ∧
    (∀ b, b < fileSize →
      ∃! i, i < n ∧ offset fileSize n i ≤ b ∧ b < offset fileSize n i + length fileSize n i) := by
  have hoff := fun i hi => offset_eq fileSize n i hsize hint hi
  have hlen := fun i hi => length_eq fileSize n i hsize hint hi
  have hle := fun i hi => offset_le fileSize n i hsize hint hi
  have hlast : offset fileSize n (n - 1) + length fileSize n (n - 1) = fileSize := by
    have h1 := hle (n - 1) (by omega)
    have hq0 := Nat.zero_le (fileSize / n)
    rw [hlen (n - 1) (by omega), if_pos rfl]
    omega
  have hstep : ∀ i, i + 1 < n →
      offset fileSize n (i + 1) = offset fileSize n i + length fileSize n i := by
    intro i hi
    rw [hlen i (by omega), if_neg (by omega), hoff i (by omega), hoff (i + 1) hi]
    ring
  have hmono : ∀ j k, j < k → k < n →
      offset fileSize n j + length fileSize n j ≤ offset fileSize n k := by
    intro j k hjk hk
    rw [hlen j (by omega), if_neg (by omega), hoff j (by omega), hoff k hk]
    have h1 : (j + 1) * (fileSize / n) ≤ k * (fileSize / n) := Nat.mul_le_mul_right _ hjk
    have h3 : (j + 1) * (fileSize / n) = j * (fileSize / n) + fileSize / n := by ring
    omega
  refine ⟨hoff, hlen, fun i _ => rfl, ?_, hstep, hlast, ?_⟩
  · rw [hoff 0 (by omega)]; simp
  · intro b hb
    have hex : ∃ i, i < n ∧ offset fileSize n i ≤ b ∧
        b < offset fileSize n i + length fileSize n i := by
      by_cases hq : 0 < fileSize / n ∧ b / (fileSize / n) < n - 1
      · obtain ⟨hpos, hq⟩ := hq
        refine ⟨b / (fileSize / n), by omega, ?_, ?_⟩
        · rw [hoff _ (by omega)]
          exact Nat.div_mul_le_self b (fileSize / n)
        · rw [hoff _ (by omega), hlen _ (by omega), if_neg (by omega)]
          have := Nat.lt_div_mul_add (a := b) hpos
          linarith [Nat.mul_comm (b / (fileSize / n)) (fileSize / n)]
      · refine ⟨n - 1, by omega, ?_, by omega⟩
        rw [hoff _ (by omega)]
        rcases Nat.eq_zero_or_pos (fileSize / n) with h0 | hpos
        · rw [h0]; simp
        · have h1 : n - 1 ≤ b / (fileSize / n) := by
            by_contra hc
            exact hq ⟨hpos, by omega⟩
          calc (n - 1) * (fileSize / n) ≤ b / (fileSize / n) * (fileSize / n) :=
                Nat.mul_le_mul_right _ h1
            _ ≤ b := Nat.div_mul_le_self b (fileSize / n)
    obtain ⟨i, hi, hlo, hhi⟩ := hex
    refine ⟨i, ⟨hi, hlo, hhi⟩, ?_⟩
    rintro j ⟨hj, hjlo, hjhi⟩
    rcases Nat.lt_trichotomy j i with h | h | h
    · have := hmono j i h hi
      omega
    · exact h
    · have := hmono i j h hj
      omega

/-- Witness of C1: a file of 10 bytes and 3 workers. -/
theorem chunk_plan_partitions_witness :
    (10 < 2 ^ 64 ∧ 1 ≤ 3 ∧ 3 < 2 ^ 31) ∧
    (∀ b, b < 10 →
      ∃! i, i < 3 ∧ offset 10 3 i ≤ b ∧ b < offset 10 3 i + length 10 3 i) :=
  ⟨by decide, (chunk_plan_partitions 10 3 (by decide) (by decide) (by decide)).2.2.2.2.2.2⟩

/-! ## Decimal rendering and parsing -/

theorem digitChar_isDigit (d : Nat) (h : d < 10) : (digitChar d).isDigit = true := by
  interval_cases d <;> decide

theorem digitVal_digitChar (d : Nat) (h : d < 10) : digitVal (digitChar d) = d := by
  interval_cases d <;> decide

theorem toDigits_eq (fuel : Nat) : ∀ (n : Nat) (acc : List Char), n < fuel →
    toDigits fuel n acc =
      (if n = 0 then ['0'] else (Nat.digits 10 n).reverse.map digitChar) ++ acc := by
  induction fuel with
  | zero => intro n acc h; omega
  | succ fuel ih =>
    intro n acc h
    unfold toDigits
    by_cases h10 : n < 10
    · rw [if_pos h10]
      by_cases h0 : n = 0
      · subst h0; rfl
      · rw [if_neg h0, Nat.digits_of_lt 10 n h0 h10]; rfl
    · rw [if_neg h10, ih (n / 10) _ (by omega), if_neg (by omega), if_neg (by omega)]
      have e : Nat.digits 10 n = (n % 10) :: Nat.digits 10 (n / 10) :=
        Nat.digits_def' (by norm_num) (by omega)
      rw [e]
      simp

theorem to_string_eq (n : Nat) :
    to_string n = if n = 0 then ['0'] else (Nat.digits 10 n).reverse.map digitChar := by
  unfold to_string
  rw [toDigits_eq (n + 1) n [] (by omega)]
  simp

theorem to_string_isDigit (n : Nat) : ∀ c ∈ to_string n, c.isDigit = true := by
  intro c hc
  rw [to_string_eq] at hc
  by_cases h0 : n = 0
  · rw [if_pos h0] at hc
    simp at hc
    subst hc
    decide
  · rw [if_neg h0] at hc
    simp only [List.mem_map, List.mem_reverse] at hc
    obtain ⟨d, hd, rfl⟩ := hc
    exact digitChar_isDigit d (Nat.digits_lt_base (by norm_num) hd)

theorem to_string_ne_nil (n : Nat) : to_string n ≠ [] := by
  rw [to_string_eq]
  by_cases h0 : n = 0
  · rw [if_pos h0]; simp
  · rw [if_neg h0]
    simpa using Nat.digits_ne_nil_iff_ne_zero.mpr h0

theorem digitsValue_digits (l : List Nat) (h : ∀ d ∈ l, d < 10) :
    digitsValue (l.reverse.map digitChar) = Nat.ofDigits 10 l := by
  induction l with
  | nil => rfl
  | cons d l ih =>
    have hd : d < 10 := h d (by simp)
    have hl : ∀ x ∈ l, x < 10 := fun x hx => h x (by simp [hx])
    have ih2 := ih hl
    unfold digitsValue at ih2 ⊢
    rw [List.reverse_cons, List.map_append, List.foldl_append, ih2, Nat.ofDigits_cons]
    simp [digitVal_digitChar d hd]
    ring

theorem digitsValue_to_string (n : Nat) : digitsValue (to_string n) = n := by
  rw [to_string_eq]
  by_cases h0 : n = 0
  · rw [if_pos h0, h0]; decide
  · rw [if_neg h0, digitsValue_digits _ (fun d hd => Nat.digits_lt_base (by norm_num) hd)]
    exact Nat.ofDigits_digits 10 n

theorem to_string_length_le (n : Nat) (h : n < 2 ^ 64) : (to_string n).length ≤ 20 := by
  rw [to_string_eq]
  by_cases h0 : n = 0
  · rw [if_pos h0]; simp
  · rw [if_neg h0]
    simp only [List.length_map, List.length_reverse]
    by_contra hc
    have h1 : 10 ^ 21 ≤ 10 ^ (Nat.digits 10 n).length :=
      Nat.pow_le_pow_right (by norm_num) (by omega)
    have h2 := Nat.base_pow_length_digits_le 10 n (by norm_num) h0
    omega

/-- On a non-empty run of digits the scanner finds no sign and takes the whole run. -/
theorem scanInteger_digits (ds : List Char) (h : ∀ c ∈ ds, c.isDigit = true) :
    scanInteger ds = (false, ds) := by
  cases ds with
  | nil => rfl
  | cons c cs =>
    have hc : c.isDigit = true := h c (by simp)
    have hsp : isspace c = false := by
      by_contra hne
      have hs : isspace c = true := by simpa using hne
      unfold isspace at hs
      simp only [Bool.or_eq_true, decide_eq_true_eq] at hs
      rcases hs with ((((h1 | h1) | h1) | h1) | h1) | h1
      · subst h1; exact absurd hc (by decide)
      · subst h1; exact absurd hc (by decide)
      · subst h1; exact absurd hc (by decide)
      · subst h1; exact absurd hc (by decide)
      · have : c.isDigit = false := by
          unfold Char.isDigit
          have h48 : ¬ (c.val ≥ 48) := by
            intro h48
            have : c.toNat ≥ 48 := h48
            omega
          simp [h48]
        rw [this] at hc; exact absurd hc (by decide)
      · have : c.isDigit = false := by
          unfold Char.isDigit
          have h48 : ¬ (c.val ≥ 48) := by
            intro h48
            have : c.toNat ≥ 48 := h48
            omega
          simp [h48]
        rw [this] at hc; exact absurd hc (by decide)
    have htw : List.takeWhile Char.isDigit (c :: cs) = c :: cs :=
      List.takeWhile_eq_self_iff.mpr h
    unfold scanInteger
    have hdw : List.dropWhile isspace (c :: cs) = c :: cs := by
      simp [List.dropWhile, hsp]
    rw [hdw]
    split
    · rename_i r heq
      injection heq with h1 h2
      subst h1; exact absurd hc (by decide)
    · rename_i r heq
      injection heq with h1 h2
      subst h1; exact absurd hc (by decide)
    · rw [htw]

theorem stoull_to_string (n : Nat) (h : n < 2 ^ 64) : stoull (to_string n) = .ok n := by
  unfold stoull
  rw [scanInteger_digits _ (to_string_isDigit n)]
  simp only [digitsValue_to_string]
  rw [if_neg (to_string_ne_nil n), if_neg (by unfold U64; omega)]
  simp

theorem stoi_to_string (n : Nat) (h : n < 2 ^ 31) : stoi (to_string n) = .ok (n : Int) := by
  unfold stoi
  rw [scanInteger_digits _ (to_string_isDigit n)]
  simp only [digitsValue_to_string]
  rw [if_neg (to_string_ne_nil n)]
  simp only [Bool.false_eq_true, if_false]
  rw [if_neg (by omega)]

/-! ## `find` on a string with a known shape -/

theorem findAux_skip (a : Char) (pt rest : List Char) :
    ∀ (pre : List Char) (i : Nat), a ∉ pre →
      findAux (a :: pt) (pre ++ (a :: pt) ++ rest) i = some (i + pre.length) := by
  intro pre
  induction pre with
  | nil =>
    intro i _
    have hp : (a :: pt).isPrefixOf (a :: (pt ++ rest)) = true :=
      List.isPrefixOf_iff_prefix.mpr (List.prefix_append (a :: pt) rest)
    show findAux (a :: pt) (a :: (pt ++ rest)) i = some (i + 0)
    rw [findAux, if_pos hp]
    rfl
  | cons x xs ih =>
    intro i hx
    have hxa : ¬ a = x := fun e => hx (by simp [e])
    have hxs : a ∉ xs := fun e => hx (by simp [e])
    have hb : (a == x) = false := by simpa using hxa
    have hp : (a :: pt).isPrefixOf (x :: (xs ++ (a :: pt) ++ rest)) = false := by
      simp only [List.isPrefixOf, hb, Bool.false_and]
    show findAux (a :: pt) (x :: (xs ++ (a :: pt) ++ rest)) i = some (i + (xs.length + 1))
    rw [findAux, hp, if_neg (by simp), ih (i + 1) hxs]
    congr 1
    omega

theorem findAux_none (a : Char) (pt : List Char) :
    ∀ (s : List Char) (i : Nat), a ∉ s → findAux (a :: pt) s i = none := by
  intro s
  induction s with
  | nil => intro i _; simp [findAux]
  | cons x xs ih =>
    intro i hx
    have hxa : ¬ a = x := fun e => hx (by simp [e])
    have hxs : a ∉ xs := fun e => hx (by simp [e])
    have hb : (a == x) = false := by simpa using hxa
    have hp : (a :: pt).isPrefixOf (x :: xs) = false := by
      simp only [List.isPrefixOf, hb, Bool.false_and]
    rw [findAux, hp, if_neg (by simp), ih (i + 1) hxs]

/-- A `find` from `start` when the string is `skip ++ pre ++ pat ++ rest`,
`skip` has `start` characters and the first character of `pat` is not in `pre`. -/
theorem find_shape (a : Char) (pt skip pre rest : List Char) (h : a ∉ pre) :
    find (skip ++ (pre ++ ((a :: pt) ++ rest))) (a :: pt) skip.length =
      some (skip.length + pre.length) := by
  unfold find
  rw [if_neg (by simp), List.drop_left]
  have := findAux_skip a pt rest pre skip.length h
  simpa [List.append_assoc] using this

theorem find_absent (a : Char) (pt s : List Char) (h : a ∉ s) : find s (a :: pt) 0 = none := by
  unfold find
  rw [if_neg (by simp)]
  exact findAux_none a pt _ 0 h

theorem isDigit_ne (c x : Char) (hx : x.isDigit = false) (hc : c.isDigit = true) : c ≠ x := by
  intro e
  rw [e, hx] at hc
  exact absurd hc (by decide)

theorem not_mem_to_string (n : Nat) (x : Char) (hx : x.isDigit = false) : x ∉ to_string n :=
  fun hmem => isDigit_ne x x hx (to_string_isDigit n x hmem) rfl

/-- Parsing the server's header followed by any bytes `t`. -/
theorem parseHeader_header (n : Nat) (p t : List Char) (hn : n < 2 ^ 64) (hp : '\n' ∉ p) :
    find (header n p ++ t) ['\n'] 0 = some (15 + (to_string n).length + p.length) ∧
    parseHeader (header n p ++ t) (15 + (to_string n).length + p.length) = .ok (n, p, t) := by
  have hlen := to_string_length_le n hn
  have hnl : '\n' ∉ to_string n := not_mem_to_string n _ (by decide)
  have hcolon : ':' ∉ to_string n := not_mem_to_string n _ (by decide)
  have hF : 'F' ∉ to_string n := not_mem_to_string n _ (by decide)
  constructor
  · have h1 := find_shape '\n' [] []
      (['S', 'I', 'Z', 'E', ':'] ++ to_string n ++
        [':', 'F', 'I', 'L', 'E', 'N', 'A', 'M', 'E', ':'] ++ p) t
      (by simp [hnl, hp])
    simp only [List.nil_append, List.length_nil, Nat.zero_add] at h1
    have e : header n p ++ t = ['S', 'I', 'Z', 'E', ':'] ++ to_string n ++
        [':', 'F', 'I', 'L', 'E', 'N', 'A', 'M', 'E', ':'] ++ p ++ (['\n'] ++ t) := by
      simp [header, List.append_assoc]
    rw [e, h1]
    simp
    omega
  · have e1 : header n p ++ t = [] ++ ([] ++ (['S', 'I', 'Z', 'E', ':'] ++
        (to_string n ++ [':', 'F', 'I', 'L', 'E', 'N', 'A', 'M', 'E', ':'] ++ p ++ '\n' :: t))) := by
      simp [header, List.append_assoc]
    have f1 : find (header n p ++ t) ['S', 'I', 'Z', 'E', ':'] 0 = some 0 := by
      rw [e1]
      exact find_shape 'S' ['I', 'Z', 'E', ':'] [] [] _ (by simp)
    have e2 : header n p ++ t = ['S', 'I', 'Z', 'E', ':'] ++ (to_string n ++ ([':'] ++
        (['F', 'I', 'L', 'E', 'N', 'A', 'M', 'E', ':'] ++ p ++ '\n' :: t))) := by
      simp [header, List.append_assoc]
    have f2 : find (header n p ++ t) [':'] 5 = some (5 + (to_string n).length) := by
      rw [e2]
      exact find_shape ':' [] ['S', 'I', 'Z', 'E', ':'] (to_string n) _ hcolon
    have e3 : header n p ++ t = [] ++ ((['S', 'I', 'Z', 'E', ':'] ++ to_string n ++ [':']) ++
        (['F', 'I', 'L', 'E', 'N', 'A', 'M', 'E', ':'] ++ (p ++ '\n' :: t))) := by
      simp [header, List.append_assoc]
    have f3 : find (header n p ++ t) ['F', 'I', 'L', 'E', 'N', 'A', 'M', 'E', ':'] 0 =
        some (6 + (to_string n).length) := by
      rw [e3]
      refine (find_shape 'F' ['I', 'L', 'E', 'N', 'A', 'M', 'E', ':'] []
        (['S', 'I', 'Z', 'E', ':'] ++ to_string n ++ [':']) (p ++ '\n' :: t)
        (by simp [hF])).trans ?_
      simp
      omega
    have s1 : substr (header n p ++ t) 5 (to_string n).length = .ok (to_string n) := by
      unfold substr
      rw [if_neg (by simp [header]), e2]
      have : List.drop 5 (['S', 'I', 'Z', 'E', ':'] ++ (to_string n ++ ([':'] ++
          (['F', 'I', 'L', 'E', 'N', 'A', 'M', 'E', ':'] ++ p ++ '\n' :: t)))) =
          to_string n ++ ([':'] ++ (['F', 'I', 'L', 'E', 'N', 'A', 'M', 'E', ':'] ++ p ++ '\n' :: t)) :=
        List.drop_left ['S', 'I', 'Z', 'E', ':'] _
      rw [this, List.take_left]
    have e4 : header n p ++ t = (['S', 'I', 'Z', 'E', ':'] ++ to_string n ++
        [':', 'F', 'I', 'L', 'E', 'N', 'A', 'M', 'E', ':']) ++ (p ++ '\n' :: t) := by
      simp [header, List.append_assoc]
    have l4 : (['S', 'I', 'Z', 'E', ':'] ++ to_string n ++
        [':', 'F', 'I', 'L', 'E', 'N', 'A', 'M', 'E', ':']).length = 15 + (to_string n).length := by
      simp
      omega
    have s2 : substr (header n p ++ t) (15 + (to_string n).length) p.length = .ok p := by
      unfold substr
      rw [if_neg (by simp [header]; omega), e4, ← l4, List.drop_left, List.take_left]
    have e5 : header n p ++ t = (['S', 'I', 'Z', 'E', ':'] ++ to_string n ++
        [':', 'F', 'I', 'L', 'E', 'N', 'A', 'M', 'E', ':'] ++ p ++ ['\n']) ++ t := by
      simp [header, List.append_assoc]
    have l5 : (['S', 'I', 'Z', 'E', ':'] ++ to_string n ++
        [':', 'F', 'I', 'L', 'E', 'N', 'A', 'M', 'E', ':'] ++ p ++ ['\n']).length =
        15 + (to_string n).length + p.length + 1 := by
      simp
      omega
    have d5 : List.drop (15 + (to_string n).length + p.length + 1) (header n p ++ t) = t := by
      rw [e5, ← l5, List.drop_left]
    have m1 : (0 + 5) % U64 = 5 := by decide
    have m2 : (6 + (to_string n).length + 9) % U64 = 15 + (to_string n).length := by
      rw [Nat.mod_eq_of_lt (by unfold U64; omega)]
      omega
    have u1 : subU64 (5 + (to_string n).length) 5 = (to_string n).length := by
      unfold subU64
      rw [if_pos (by omega)]
      omega
    have u2 : subU64 (15 + (to_string n).length + p.length) (15 + (to_string n).length) =
        p.length := by
      unfold subU64
      rw [if_pos (by omega)]
      omega
    unfold parseHeader
    simp only [f1, f2, f3, sizeT, m1, m2, u1, u2, s1, s2, d5, stoull_to_string n hn,
      bind, Except.bind, pure, Except.pure]

/-! ## Client worker: header loop and receive loop -/

/-- Chunks received before the newline only grow the buffer. -/
theorem headerLoop_chunks (last : List Char) (rest : List Recv) :
    ∀ (chunks : List (List Char)) (acc : List Char),
      (∀ c ∈ chunks, c ≠ [] ∧ c.length ≤ 1024) → '\n' ∉ acc ++ chunks.flatten →
      headerLoop (chunks.map Recv.data ++ Recv.data last :: rest) acc =
        headerLoop (Recv.data last :: rest) (acc ++ chunks.flatten) := by
  intro chunks
  induction chunks with
  | nil => intro acc _ _; simp
  | cons c cs ih =>
    intro acc hc hnl
    have hc1 := hc c (by simp)
    have htake : c.take 1024 = c := List.take_of_length_le hc1.2
    have hnl1 : '\n' ∉ acc ++ c := by
      intro hmem
      apply hnl
      simp only [List.flatten_cons, List.mem_append] at hmem ⊢
      tauto
    have hfind : find (acc ++ c) ['\n'] 0 = none := find_absent '\n' [] _ hnl1
    have hnl2 : '\n' ∉ (acc ++ c) ++ cs.flatten := by
      simpa [List.append_assoc] using hnl
    have hrec := ih (acc ++ c) (fun x hx => hc x (by simp [hx])) hnl2
    show headerLoop (Recv.data c :: (cs.map Recv.data ++ Recv.data last :: rest)) acc = _
    rw [headerLoop]
    simp only [htake, hfind]
    rw [if_neg hc1.1, hrec]
    simp [List.append_assoc]

/-- The read that brings the newline ends the loop with the parsed header. -/
theorem headerLoop_final (n : Nat) (p t acc last : List Char) (rest : List Recv)
    (hn : n < 2 ^ 64) (hp : '\n' ∉ p) (hlast : last.length ≤ 1024) (hnl : '\n' ∉ acc)
    (hacc : acc ++ last = header n p ++ t) :
    headerLoop (Recv.data last :: rest) acc = .ok ⟨n, p, t, rest⟩ := by
  have hne : last ≠ [] := by
    intro e
    rw [e, List.append_nil] at hacc
    rw [hacc] at hnl
    exact hnl (by simp [header])
  have htake : last.take 1024 = last := List.take_of_length_le hlast
  obtain ⟨hfind, hparse⟩ := parseHeader_header n p t hn hp
  simp only [headerLoop, htake, hacc, hfind, hparse]
  rw [if_neg hne]

theorem receiveLoop_written (expectedSize : Nat) :
    ∀ (script : List Recv) (totalReceived : Nat) (written : List Char),
      written <+: (receiveLoop expectedSize script totalReceived written).written ∧
      ((receiveLoop expectedSize script totalReceived written).written.length + totalReceived =
        (receiveLoop expectedSize script totalReceived written).totalReceived + written.length) := by
  intro script
  induction script with
  | nil => intro tot w; simp [receiveLoop, Nat.add_comm]
  | cons r rs ih =>
    intro tot w
    cases r with
    | data bytes =>
      simp only [receiveLoop]
      split
      · split
        · simp [Nat.add_comm]
        · obtain ⟨h1, h2⟩ := ih
            (tot + (bytes.take (min 1024 (expectedSize - tot))).length)
            (w ++ bytes.take (min 1024 (expectedSize - tot)))
          refine ⟨(List.prefix_append w _).trans h1, ?_⟩
          rw [List.length_append] at h2
          omega
      · simp [Nat.add_comm]
    | error wsa =>
      simp only [receiveLoop]
      split
      · split
        · exact ih tot w
        · simp [Nat.add_comm]
      · simp [Nat.add_comm]

/-- C3: when the bytes accumulated by the header loop, over any number of
`recv` calls, are the server's header for payload size `n < 2^64` and a path
`p` without newline, followed by any bytes `t`, the client parses
`expectedSize = n` and the name `p` and keeps exactly `t` in the buffer; the
receive loop starts with `totalReceived = |t|` and a part file that holds `t`,
and `t` stays the beginning of the part file. -/
theorem header_keeps_trailing_payload (n : Nat) (p t : List Char)
    (chunks : List (List Char)) (last : List Char) (rest : List Recv)
    (hn : n < 2 ^ 64) (hp : '\n' ∉ p)
    (hchunks : ∀ c ∈ chunks, c ≠ [] ∧ c.length ≤ 1024) (hlast : last.length ≤ 1024)
    (hnl : '\n' ∉ chunks.flatten)
    (hacc : chunks.flatten ++ last = header n p ++ t) :
    headerLoop (chunks.map Recv.data ++ Recv.data last :: rest) [] = .ok ⟨n, p, t, rest⟩ ∧
    handleConnection true (chunks.map Recv.data ++ Recv.data last :: rest) =
      ⟨verifyTransfer n (receiveLoop n rest t.length t), some p,
        some (receiveLoop n rest t.length t).written⟩ ∧
    t <+: (receiveLoop n rest t.length t).written := by
  have h1 : headerLoop (chunks.map Recv.data ++ Recv.data last :: rest) [] =
      .ok ⟨n, p, t, rest⟩ := by
    rw [headerLoop_chunks last rest chunks [] hchunks (by simpa using hnl)]
    exact headerLoop_final n p t _ last rest hn hp hlast (by simpa using hnl)
      (by simpa using hacc)
  refine ⟨h1, ?_, (receiveLoop_written n rest t.length t).1⟩
  simp [handleConnection, h1]

/-- Witness of C3: the header for 2 bytes of `f` arrives in two reads, the
second of which also carries one byte of payload. -/
theorem header_keeps_trailing_payload_witness :
    (2 < 2 ^ 64 ∧ '\n' ∉ ['f'] ∧
      ['S', 'I'] ++ ['Z', 'E', ':', '2', ':', 'F', 'I', 'L', 'E', 'N', 'A', 'M', 'E', ':',
        'f', '\n', 'a'] = header 2 ['f'] ++ ['a']) ∧
    headerLoop (Recv.data ['S', 'I'] :: Recv.data ['Z', 'E', ':', '2', ':', 'F', 'I', 'L',
      'E', 'N', 'A', 'M', 'E', ':', 'f', '\n', 'a'] :: [Recv.data ['b']]) [] =
      .ok ⟨2, ['f'], ['a'], [Recv.data ['b']]⟩ :=
  ⟨by decide,
    (header_keeps_trailing_payload 2 ['f'] ['a'] [['S', 'I']]
      ['Z', 'E', ':', '2', ':', 'F', 'I', 'L', 'E', 'N', 'A', 'M', 'E', ':', 'f', '\n', 'a']
      [Recv.data ['b']] (by decide) (by decide) (by decide) (by decide) (by decide)
      (by decide)).1⟩

/-- C4: for every `recv` script, once the header is parsed the part file holds
exactly the bytes counted by `totalReceived` and stays on disk; when the receive
loop is left with a count different from `expectedSize` the worker reports the
incomplete transfer; it reports completion exactly when the loop is left with
the count equal to `expectedSize`; a socket error is reported as such. -/
theorem incomplete_transfer_reported (script : List Recv) (h : Header)
    (hh : headerLoop script [] = .ok h) :
    ∃ r : Received,
      r = receiveLoop h.expectedSize h.script h.headerBuffer.length h.headerBuffer ∧
      (handleConnection true script).partFile = some r.written ∧
      r.written.length = r.totalReceived ∧
      (r.thrown = none → r.written.length ≠ h.expectedSize →
        (handleConnection true script).report = .incomplete r.written.length h.expectedSize) ∧
      (r.thrown = none → r.written.length = h.expectedSize →
        (handleConnection true script).report = .completed h.expectedSize h.expectedSize) ∧
      (∀ a b, (handleConnection true script).report = .completed a b →
        r.thrown = none ∧ r.written.length = h.expectedSize) ∧
      (∀ wsa, r.thrown = some wsa →
        (handleConnection true script).report = .transferError wsa) := by
  refine ⟨_, rfl, ?_⟩
  have hlen := (receiveLoop_written h.expectedSize h.script h.headerBuffer.length
    h.headerBuffer).2
  have hlen2 : (receiveLoop h.expectedSize h.script h.headerBuffer.length
      h.headerBuffer).written.length = (receiveLoop h.expectedSize h.script
      h.headerBuffer.length h.headerBuffer).totalReceived := by omega
  have hres : handleConnection true script =
      ⟨verifyTransfer h.expectedSize
        (receiveLoop h.expectedSize h.script h.headerBuffer.length h.headerBuffer),
        some h.partFilename,
        some (receiveLoop h.expectedSize h.script h.headerBuffer.length
          h.headerBuffer).written⟩ := by
    simp [handleConnection, hh]
  rw [hres]
  generalize receiveLoop h.expectedSize h.script h.headerBuffer.length h.headerBuffer = r
    at hlen2 ⊢
  obtain ⟨thrown, total, written⟩ := r
  simp only at hlen2 ⊢
  subst hlen2
  refine ⟨trivial, rfl, ?_, ?_, ?_, ?_⟩
  · intro ht hne
    subst ht
    simp [verifyTransfer, hne]
  · intro ht he
    subst ht
    simp [verifyTransfer, he]
  · intro a b hab
    cases thrown with
    | none =>
      by_cases he : written.length = h.expectedSize
      · exact ⟨rfl, he⟩
      · simp [verifyTransfer, he] at hab
    | some w => simp [verifyTransfer] at hab
  · intro wsa ht
    subst ht
    simp [verifyTransfer]

/-- Witness of C4: the server announces 2 bytes, delivers 1 and closes. -/
theorem incomplete_transfer_reported_witness :
    headerLoop [Recv.data (header 2 ['f'] ++ ['a']), Recv.data []] [] =
      .ok ⟨2, ['f'], ['a'], [Recv.data []]⟩ ∧
    (handleConnection true [Recv.data (header 2 ['f'] ++ ['a']), Recv.data []]).report =
      .incomplete 1 2 ∧
    (handleConnection true [Recv.data (header 2 ['f'] ++ ['a']), Recv.data []]).partFile =
      some ['a'] := by
  have hh : headerLoop [Recv.data (header 2 ['f'] ++ ['a']), Recv.data []] [] =
      .ok ⟨2, ['f'], ['a'], [Recv.data []]⟩ := by decide
  obtain ⟨r, hr, hfile, _, hinc, _, _, _⟩ :=
    incomplete_transfer_reported
      [Recv.data (header 2 ['f'] ++ ['a']), Recv.data []] _ hh
  have hr2 : r = ⟨none, 1, ['a']⟩ := by rw [hr]; decide
  subst hr2
  exact ⟨hh, hinc rfl (by decide), hfile⟩

/-! ## Reassembly -/

/-- After a successful loop the part files of the range are gone. -/
theorem mergeLoop_parts : ∀ (count i : Nat) (parts : Nat → Option (List Char))
    (output : OutStream), (mergeLoop count i parts output).1 = .success →
    ∀ j, (mergeLoop count i parts output).2.1 j =
      if i ≤ j ∧ j < i + count then none else parts j := by
  intro count
  induction count with
  | zero =>
    intro i parts output _ j
    simp only [mergeLoop]
    rw [if_neg (by omega)]
  | succ count ih =>
    intro i parts output h j
    cases hc : parts i with
    | none => simp [mergeLoop, hc] at h
    | some c =>
      simp only [mergeLoop, hc] at h ⊢
      rw [ih (i + 1) _ _ h j]
      by_cases h1 : i + 1 ≤ j ∧ j < i + 1 + count
      · rw [if_pos h1, if_pos (by omega)]
      · rw [if_neg h1]
        by_cases h2 : j = i
        · rw [if_pos h2, if_pos (by omega)]
        · rw [if_neg h2, if_neg (by omega)]

/-- The running total of the chunk plan: where worker `i` starts, and the file
size once every worker is done. -/
theorem cumulative_step (fileSize n i : Nat) (hsize : fileSize < 2 ^ 64)
    (hint : n < 2 ^ 31) (hi : i < n) :
    (if i < n then i * (fileSize / n) else fileSize) + length fileSize n i =
      if i + 1 < n then (i + 1) * (fileSize / n) else fileSize := by
  have hoff := offset_eq fileSize n i hsize hint hi
  have hle := offset_le fileSize n i hsize hint hi
  have hq0 := Nat.zero_le (fileSize / n)
  rw [if_pos hi, length_eq fileSize n i hsize hint hi, hoff]
  rw [hoff] at hle
  by_cases h : i + 1 < n
  · rw [if_pos h, if_neg (by omega)]
    ring
  · rw [if_neg h, if_pos (by omega)]
    omega

/-- With no empty part file the loop rebuilds the source. -/
theorem mergeLoop_rebuilds (source : List Char) (n : Nat) (hsize : source.length < 2 ^ 64)
    (hint : n < 2 ^ 31) (hfull : n ≤ source.length) :
    ∀ (count i : Nat) (parts : Nat → Option (List Char)) (output : OutStream),
      i + count = n → (∀ j, i ≤ j → j < n → parts j = partsOf source n j) →
      output.failbit = false →
      output.content =
        source.take (if i < n then i * (source.length / n) else source.length) →
      (mergeLoop count i parts output).1 = .success ∧
      (mergeLoop count i parts output).2.2.content = source := by
  intro count
  induction count with
  | zero =>
    intro i parts output hi _ _ hcontent
    rw [if_neg (by omega), List.take_length] at hcontent
    exact ⟨rfl, hcontent⟩
  | succ count ih =>
    intro i parts output hi hparts hfail hcontent
    have hin : i < n := by omega
    have hstep := cumulative_step source.length n i hsize hint hin
    have hpart : parts i = some ((source.drop (offset source.length n i)).take
        (length source.length n i)) := by
      rw [hparts i (le_refl i) hin]
      simp [partsOf, hin]
    have hoff := offset_eq source.length n i hsize hint hin
    have hle := offset_le source.length n i hsize hint hin
    have hq : 1 ≤ source.length / n := by
      rcases Nat.eq_zero_or_pos n with h0 | hpos
      · omega
      · exact (Nat.one_le_div_iff hpos).mpr hfull
    have hlen1 : 1 ≤ length source.length n i := by
      rw [length_eq source.length n i hsize hint hin]
      split <;> omega
    have hne : (source.drop (offset source.length n i)).take (length source.length n i) ≠
        [] := by
      intro e
      have e2 := congrArg List.length e
      rw [List.length_take, List.length_drop, List.length_nil] at e2
      rw [if_pos hin, ← hoff] at hstep
      have : offset source.length n i + length source.length n i ≤ source.length := by
        rw [hstep]
        split
        · have h1 : (i + 1) * (source.length / n) ≤ n * (source.length / n) :=
            Nat.mul_le_mul_right _ (by omega)
          have h2 := Nat.mul_div_le source.length n
          omega
        · exact le_refl _
      omega
    simp only [mergeLoop, hpart]
    apply ih (i + 1)
    · omega
    · intro j hj1 hj2
      show (if j = i then none else parts j) = partsOf source n j
      rw [if_neg (by omega)]
      exact hparts j (by omega) hj2
    · simp [insertRdbuf, hfail, hne]
    · have : (insertRdbuf output ((source.drop (offset source.length n i)).take
          (length source.length n i))).content = output.content ++
          (source.drop (offset source.length n i)).take (length source.length n i) := by
        simp [insertRdbuf, hfail, hne]
      rw [this, hcontent, if_pos hin, ← hstep, if_pos hin, hoff, List.take_add]

/-- Round trip when no worker has an empty range: for `1 ≤ n ≤ |source|` the
merge of the part files of the chunk plan reports success and the final file is
the source. (For `0 < |source| < n` it is not: see the next theorem.) -/
theorem merge_round_trip_without_empty_part (source : List Char) (n : Nat)
    (final : Option (List Char)) (hsize : source.length < 2 ^ 64) (hn : 1 ≤ n)
    (hint : n < 2 ^ 31) (hfull : n ≤ source.length) :
    (mergeFiles (n : Int) true ⟨final, partsOf source n⟩).1 = .success ∧
    (mergeFiles (n : Int) true ⟨final, partsOf source n⟩).2.final = some source := by
  have h := mergeLoop_rebuilds source n hsize hint hfull n 0 (partsOf source n) ⟨[], false⟩
    (by omega) (fun _ _ _ => rfl) rfl (by rw [if_pos (by omega)]; simp)
  simp only [mergeFiles, if_true, Int.toNat_natCast]
  exact ⟨h.1, by rw [h.2]⟩

/-- Witness of the round trip: 4 bytes and 3 workers. -/
theorem merge_round_trip_without_empty_part_witness :
    (mergeFiles (3 : Nat) true ⟨none, partsOf ['a', 'b', 'c', 'd'] 3⟩).2.final =
      some ['a', 'b', 'c', 'd'] :=
  (merge_round_trip_without_empty_part ['a', 'b', 'c', 'd'] 3 none (by decide) (by decide)
    (by decide) (by decide)).2

/-- C2, at the failing input: a source of one byte fetched by three workers
(and by eight). The parts of workers 0 and 1 are empty files, worker 2 holds
the byte; the merge reports success and the final file is empty, not the
source. -/
theorem merge_loses_parts_after_empty_part :
    partsOf ['a'] 3 0 = some [] ∧ partsOf ['a'] 3 1 = some [] ∧
    partsOf ['a'] 3 2 = some ['a'] ∧
    (mergeFiles 3 true ⟨none, partsOf ['a'] 3⟩).1 = .success ∧
    (mergeFiles 3 true ⟨none, partsOf ['a'] 3⟩).2.final = some [] ∧
    (mergeFiles 8 true ⟨none, partsOf ['a'] 8⟩).1 = .success ∧
    (mergeFiles 8 true ⟨none, partsOf ['a'] 8⟩).2.final = some [] := by
  decide

/-- C6 as stated fails: one worker, a part file `a`. The first merge succeeds
and leaves the final file `a` and no part file; the second run reports the
missing part 0 and leaves the final file empty. -/
theorem rerun_merge_empties_final :
    (mergeFiles 1 true ⟨none, fun i => if i = 0 then some ['a'] else none⟩).1 = .success ∧
    (mergeFiles 1 true ⟨none, fun i => if i = 0 then some ['a'] else none⟩).2.final =
      some ['a'] ∧
    (mergeFiles 1 true
      (mergeFiles 1 true ⟨none, fun i => if i = 0 then some ['a'] else none⟩).2).1 =
      .missingPart 0 ∧
    (mergeFiles 1 true
      (mergeFiles 1 true ⟨none, fun i => if i = 0 then some ['a'] else none⟩).2).2.final =
      some [] := by
  decide

/-- C6 as amended: after a successful merge with `threadCount ≥ 1`, a second
run of `mergeFiles` reports the missing part file 0; the output file has been
opened, and so truncated, before the part files are looked at, so the final
file is left empty. -/
theorem rerun_merge_fails_and_truncates (threadCount : Int) (dir : DownloadDir)
    (hcount : 1 ≤ threadCount) (hfirst : (mergeFiles threadCount true dir).1 = .success) :
    (mergeFiles threadCount true (mergeFiles threadCount true dir).2).1 = .missingPart 0 ∧
    (mergeFiles threadCount true (mergeFiles threadCount true dir).2).2.final = some [] := by
  obtain ⟨k, hk⟩ : ∃ k, threadCount.toNat = k + 1 := ⟨threadCount.toNat - 1, by omega⟩
  simp only [mergeFiles, if_true] at hfirst ⊢
  have h0 := mergeLoop_parts threadCount.toNat 0 dir.parts ⟨[], false⟩ hfirst 0
  rw [if_pos (by omega)] at h0
  generalize (mergeLoop threadCount.toNat 0 dir.parts ⟨[], false⟩).2.1 = left at h0 ⊢
  rw [hk]
  simp only [mergeLoop, h0]
  exact ⟨trivial, trivial⟩

/-- Witness of C6 as amended: one worker, a part file `a`. -/
theorem rerun_merge_fails_and_truncates_witness :
    (mergeFiles 1 true
      (mergeFiles 1 true ⟨none, fun i => if i = 0 then some ['a'] else none⟩).2).1 =
      .missingPart 0 :=
  (rerun_merge_fails_and_truncates 1 ⟨none, fun i => if i = 0 then some ['a'] else none⟩
    (by decide) (by decide)).1

/-! ## Dispatcher -/

theorem stoi_range (s : List Char) (v : Int) (h : stoi s = .ok v) :
    -(2 ^ 31) ≤ v ∧ v < 2 ^ 31 := by
  unfold stoi at h
  by_cases h1 : (scanInteger s).2 = []
  · simp [h1] at h
  · simp only [h1, if_false] at h
    split at h <;> split at h <;> cases h <;> omega

/-- The positions and fields that `run` finds in a message with two commas. -/
theorem parse_two_commas (sa sb f : List Char) (hca : ',' ∉ sa) (hcb : ',' ∉ sb)
    (hlen : (sa ++ ',' :: (sb ++ ',' :: f)).length ≤ 4095) :
    find (sa ++ ',' :: (sb ++ ',' :: f)) [','] 0 = some sa.length ∧
    find (sa ++ ',' :: (sb ++ ',' :: f)) [','] ((sa.length + 1) % U64) =
      some (sa.length + 1 + sb.length) ∧
    parseFields (sa ++ ',' :: (sb ++ ',' :: f)) sa.length (sa.length + 1 + sb.length) =
      (do
        let threadId ← stoi sa
        let totalThreads ← stoi sb
        pure (threadId, totalThreads, f)) := by
  simp only [List.length_append, List.length_cons] at hlen
  have m1 : (sa.length + 1) % U64 = sa.length + 1 :=
    Nat.mod_eq_of_lt (by unfold U64; omega)
  have m2 : (sa.length + 1 + sb.length + 1) % U64 = sa.length + 1 + sb.length + 1 :=
    Nat.mod_eq_of_lt (by unfold U64; omega)
  have f1 : find (sa ++ ',' :: (sb ++ ',' :: f)) [','] 0 = some sa.length := by
    have := find_shape ',' [] [] sa (sb ++ ',' :: f) hca
    simpa using this
  have f2 : find (sa ++ ',' :: (sb ++ ',' :: f)) [','] (sa.length + 1) =
      some (sa.length + 1 + sb.length) := by
    have := find_shape ',' [] (sa ++ [',']) sb f hcb
    simpa [List.append_assoc] using this
  have s1 : substr (sa ++ ',' :: (sb ++ ',' :: f)) 0 sa.length = .ok sa := by
    unfold substr
    rw [if_neg (by omega), List.drop_zero, List.take_left]
  have d2 : List.drop (sa.length + 1) (sa ++ ',' :: (sb ++ ',' :: f)) = sb ++ ',' :: f := by
    have e : sa ++ ',' :: (sb ++ ',' :: f) = (sa ++ [',']) ++ (sb ++ ',' :: f) := by simp
    have l : (sa ++ [',']).length = sa.length + 1 := by simp
    rw [e, ← l, List.drop_left]
  have s2 : substr (sa ++ ',' :: (sb ++ ',' :: f)) (sa.length + 1) sb.length = .ok sb := by
    unfold substr
    rw [if_neg (by simp), d2, List.take_left]
  have d3 : List.drop (sa.length + 1 + sb.length + 1) (sa ++ ',' :: (sb ++ ',' :: f)) = f := by
    have e : sa ++ ',' :: (sb ++ ',' :: f) = (sa ++ ',' :: (sb ++ [','])) ++ f := by simp
    have l : (sa ++ ',' :: (sb ++ [','])).length = sa.length + 1 + sb.length + 1 := by
      simp
      omega
    rw [e, ← l, List.drop_left]
  have s3 : substr (sa ++ ',' :: (sb ++ ',' :: f)) (sa.length + 1 + sb.length + 1) npos =
      .ok f := by
    have t3 : List.take npos f = f :=
      List.take_of_length_le (by unfold npos U64; omega)
    unfold substr
    rw [if_neg (by simp only [List.length_append, List.length_cons]; omega), d3, t3]
  have u1 : subU64 (subU64 (sa.length + 1 + sb.length) sa.length) 1 = sb.length := by
    have e1 : subU64 (sa.length + 1 + sb.length) sa.length = sb.length + 1 := by
      unfold subU64
      rw [if_pos (show sa.length ≤ sa.length + 1 + sb.length by omega)]
      omega
    rw [e1]
    unfold subU64
    rw [if_pos (show 1 ≤ sb.length + 1 by omega)]
    omega
  refine ⟨f1, by rw [m1]; exact f2, ?_⟩
  unfold parseFields
  rw [m1, m2, u1, s1, s2, s3]
  rfl

/-- What `run` does with a message that has two commas. -/
theorem handleMessage_two_commas (files : Files) (sa sb f : List Char) (hca : ',' ∉ sa)
    (hcb : ',' ∉ sb) (hlen : (sa ++ ',' :: (sb ++ ',' :: f)).length ≤ 4095) :
    handleMessage files (sa ++ ',' :: (sb ++ ',' :: f)) =
      match (do
        let threadId ← stoi sa
        let totalThreads ← stoi sb
        pure (threadId, totalThreads, f) : Except Exn (Int × Int × List Char)) with
      | .error e => .closed (.parseFailed e)
      | .ok (threadId, totalThreads, filename) =>
        match files filename with
        | none => .closed .fileNotFound
        | some content =>
          if toU64 totalThreads = 0 then .divisionByZero
          else .spawned
            { threadId := threadId, totalThreads := totalThreads, filename := filename,
              position := position content.length threadId totalThreads,
              bytesToSend := runBytesToSend content.length threadId totalThreads } := by
  obtain ⟨f1, f2, hp⟩ := parse_two_commas sa sb f hca hcb hlen
  unfold handleMessage
  simp only [f1, sizeT, f2, hp]
  rw [if_neg (by simp)]

theorem firstField_no_comma : ∀ m : List Char, ',' ∉ firstField m := by
  intro m
  induction m with
  | nil => simp [firstField]
  | cons x xs ih =>
    by_cases hx : x = ','
    · subst hx
      simp [firstField, List.takeWhile]
    · have hb : (x != ',') = true := by simpa using hx
      have e : firstField (x :: xs) = x :: firstField xs := by
        simp only [firstField, List.takeWhile, hb]
      rw [e]
      intro hmem
      rcases List.mem_cons.mp hmem with h | h
      · exact hx h.symm
      · exact ih h

theorem fields_split : ∀ m : List Char, ',' ∈ m →
    m = firstField m ++ ',' :: afterFirst m := by
  intro m
  induction m with
  | nil => intro h; simp at h
  | cons x xs ih =>
    intro h
    by_cases hx : x = ','
    · subst hx
      simp [firstField, afterFirst, List.takeWhile, List.dropWhile]
    · have hb : (x != ',') = true := by simpa using hx
      have hxs : ',' ∈ xs := by
        rcases List.mem_cons.mp h with h | h
        · exact absurd h.symm hx
        · exact h
      have e1 : firstField (x :: xs) = x :: firstField xs := by
        simp only [firstField, List.takeWhile, hb]
      have e2 : afterFirst (x :: xs) = afterFirst xs := by
        simp only [afterFirst, List.dropWhile, hb]
      rw [e1, e2, List.cons_append, ← ih hxs]

theorem find_after_last_comma (sa r : List Char) (hr : ',' ∉ r) :
    find (sa ++ ',' :: r) [','] (sa.length + 1) = none := by
  have e : sa ++ ',' :: r = (sa ++ [',']) ++ r := by simp
  have l : (sa ++ [',']).length = sa.length + 1 := by simp
  unfold find
  rw [if_neg (by simp), e, ← l, List.drop_left]
  exact findAux_none ',' [] r _ hr

/-- C7 as stated fails: the first field `1x` is not a decimal integer, yet the
request `1x,2,f` for an existing file of 2 bytes is served as worker 1 of 2. -/
theorem lenient_field_accepted :
    firstField ['1', 'x', ',', '2', ',', 'f'] = ['1', 'x'] ∧
    handleMessage (fun p => if p = ['f'] then some ['a', 'b'] else none)
      ['1', 'x', ',', '2', ',', 'f'] = .spawned ⟨1, 2, ['f'], 1, 1⟩ := by
  decide

/-- C7 as amended: a request message (at most 4095 bytes) that has fewer than
two commas, or whose first or second comma-separated field `std::stoi` refuses
(no digit after optional white space and sign, or a value outside `int`), is
closed without reply and without a worker, and `run` goes on to the next
connection. -/
theorem malformed_request_rejected (files : Files) (message : List Char)
    (more : List (List Char)) (hlen : message.length ≤ 4095)
    (h : message.count ',' < 2 ∨ (∃ e, stoi (firstField message) = .error e) ∨
      (∃ e, stoi (secondField message) = .error e)) :
    ∃ why, handleMessage files message = .closed why ∧
      run files (message :: more) = .closed why :: run files more := by
  have hrun : ∀ why, handleMessage files message = .closed why →
      run files (message :: more) = .closed why :: run files more := by
    intro why hm
    simp [run, hm]
  suffices hs : ∃ why, handleMessage files message = .closed why by
    obtain ⟨why, hm⟩ := hs
    exact ⟨why, hm, hrun why hm⟩
  by_cases hc1 : ',' ∈ message
  · have hsplit := fields_split message hc1
    have hno := firstField_no_comma message
    by_cases hc2 : ',' ∈ afterFirst message
    · have hsplit2 := fields_split (afterFirst message) hc2
      have hno2 := firstField_no_comma (afterFirst message)
      have hmsg : message = firstField message ++
          ',' :: (secondField message ++ ',' :: afterFirst (afterFirst message)) := by
        rw [secondField, ← hsplit2, ← hsplit]
      have hcount : 2 ≤ message.count ',' := by
        rw [hmsg]
        simp only [List.count_append, List.count_cons_self]
        omega
      have hm := handleMessage_two_commas files (firstField message) (secondField message)
        (afterFirst (afterFirst message)) hno hno2 (by rw [← hmsg]; exact hlen)
      rw [← hmsg] at hm
      rcases h with h | ⟨e, he⟩ | ⟨e, he⟩
      · omega
      · refine ⟨.parseFailed e, ?_⟩
        rw [hm, he]
        rfl
      · cases ha : stoi (firstField message) with
        | error e2 =>
          refine ⟨.parseFailed e2, ?_⟩
          rw [hm, ha]
          rfl
        | ok a =>
          refine ⟨.parseFailed e, ?_⟩
          rw [hm, ha, he]
          rfl
    · refine ⟨.invalidFormat, ?_⟩
      have f1 : find message [','] 0 = some (firstField message).length := by
        have := find_shape ',' [] [] (firstField message) (afterFirst message) hno
        simp only [List.nil_append, List.singleton_append, List.length_nil,
          Nat.zero_add] at this
        rw [← hsplit] at this
        exact this
      have hl : (firstField message).length + 1 ≤ 4095 := by
        have := congrArg List.length hsplit
        simp only [List.length_append, List.length_cons] at this
        omega
      have m1 : ((firstField message).length + 1) % U64 = (firstField message).length + 1 :=
        Nat.mod_eq_of_lt (by unfold U64; omega)
      have f2 : find message [','] ((firstField message).length + 1) = none := by
        have := find_after_last_comma (firstField message) (afterFirst message) hc2
        rw [← hsplit] at this
        exact this
      unfold handleMessage
      simp [f1, sizeT, m1, f2]
  · refine ⟨.invalidFormat, ?_⟩
    have f1 : find message [','] 0 = none := find_absent ',' [] message hc1
    unfold handleMessage
    simp [f1]

/-- Witness of C7 as amended: the request `abc,def,file`. -/
theorem malformed_request_rejected_witness :
    ∃ why, handleMessage (fun _ => some ['a'])
        ['a', 'b', 'c', ',', 'd', 'e', 'f', ',', 'f', 'i', 'l', 'e'] = .closed why ∧
      run (fun _ => some ['a'])
        (['a', 'b', 'c', ',', 'd', 'e', 'f', ',', 'f', 'i', 'l', 'e'] :: [['0', ',', '1', ',', 'f']]) =
        .closed why :: run (fun _ => some ['a']) [['0', ',', '1', ',', 'f']] :=
  malformed_request_rejected (fun _ => some ['a'])
    ['a', 'b', 'c', ',', 'd', 'e', 'f', ',', 'f', 'i', 'l', 'e'] [['0', ',', '1', ',', 'f']]
    (by decide) (Or.inr (Or.inl ⟨.invalid_argument, by decide⟩))

theorem toU64_ne_zero (b : Int) (hb : b ≠ 0) (hlo : -(2 ^ 31) ≤ b) (hhi : b < 2 ^ 31) :
    toU64 b ≠ 0 := by
  unfold toU64
  omega

/-- A request whose two fields parse, with a count other than `0`, for an
existing file: a worker is started. -/
theorem no_comma_spawn (files : Files) (sa sb f content : List Char)
    (threadId totalThreads : Int) (ha : stoi sa = .ok threadId)
    (hb : stoi sb = .ok totalThreads) (hca : ',' ∉ sa) (hcb : ',' ∉ sb)
    (hlen : (sa ++ ',' :: (sb ++ ',' :: f)).length ≤ 4095)
    (hf : files f = some content) (hb0 : totalThreads ≠ 0) :
    handleMessage files (sa ++ ',' :: (sb ++ ',' :: f)) =
      .spawned ⟨threadId, totalThreads, f, position content.length threadId totalThreads,
        runBytesToSend content.length threadId totalThreads⟩ := by
  obtain ⟨hb1, hb2⟩ := stoi_range sb totalThreads hb
  rw [handleMessage_two_commas files sa sb f hca hcb hlen, ha, hb]
  simp only [bind, Except.bind, pure, Except.pure, hf]
  rw [if_neg (toU64_ne_zero totalThreads hb0 hb1 hb2)]

theorem toU64_of_nonneg (a : Int) (h0 : 0 ≤ a) (hhi : a < 2 ^ 31) : toU64 a = a.toNat := by
  unfold toU64
  omega

/-- C8 as stated fails: on a file of 10 bytes the request `5,1,f` (worker
index 5 of 1 worker) gets the offset 50 and the length 10 and a worker is
started; the request `0,0,f` reaches the division by zero. -/
theorem out_of_range_index_gets_a_plan :
    handleMessage
      (fun p => if p = ['f'] then some ['a', 'b', 'c', 'd', 'e', 'f', 'g', 'h', 'i', 'j']
        else none) ['5', ',', '1', ',', 'f'] = .spawned ⟨5, 1, ['f'], 50, 10⟩ ∧
    handleMessage
      (fun p => if p = ['f'] then some ['a', 'b', 'c', 'd', 'e', 'f', 'g', 'h', 'i', 'j']
        else none) ['0', ',', '0', ',', 'f'] = .divisionByZero := by
  decide

/-- C8 as amended: the chunk plan computation has no error result. For a
request that names an existing file, whose fields parse to `threadId` and to a
`totalThreads` other than `0`, also with `threadId ≥ totalThreads` or a negative
`totalThreads`, `run` computes a position and a length and starts a worker; for
`1 ≤ totalThreads ≤ threadId` the position is
`threadId * (fileSize / totalThreads)` modulo `2^64` and the length is
`fileSize / totalThreads`. -/
theorem no_invalid_input_error (files : Files) (sa sb f content : List Char)
    (threadId totalThreads : Int) (ha : stoi sa = .ok threadId)
    (hb : stoi sb = .ok totalThreads) (hca : ',' ∉ sa) (hcb : ',' ∉ sb)
    (hlen : (sa ++ ',' :: (sb ++ ',' :: f)).length ≤ 4095)
    (hf : files f = some content) (hb0 : totalThreads ≠ 0) :
    handleMessage files (sa ++ ',' :: (sb ++ ',' :: f)) =
      .spawned ⟨threadId, totalThreads, f, position content.length threadId totalThreads,
        runBytesToSend content.length threadId totalThreads⟩ ∧
    (1 ≤ totalThreads → totalThreads ≤ threadId →
      position content.length threadId totalThreads =
        (threadId.toNat * (content.length / totalThreads.toNat)) % 2 ^ 64 ∧
      runBytesToSend content.length threadId totalThreads =
        content.length / totalThreads.toNat) := by
  obtain ⟨hb1, hb2⟩ := stoi_range sb totalThreads hb
  obtain ⟨ha1, ha2⟩ := stoi_range sa threadId ha
  constructor
  · exact no_comma_spawn files sa sb f content threadId totalThreads ha hb hca hcb hlen hf hb0
  · intro h1 h2
    have t1 := toU64_of_nonneg totalThreads (by omega) hb2
    have t2 := toU64_of_nonneg threadId (by omega) ha2
    have hw : wrapInt (totalThreads - 1) = totalThreads - 1 := by
      unfold wrapInt
      omega
    constructor
    · unfold position
      rw [t1, t2]
      rfl
    · unfold runBytesToSend
      rw [hw, if_neg (by omega), t1]

/-- Witness of C8 as amended: the request `5,1,f` on a file of 10 bytes. -/
theorem no_invalid_input_error_witness :
    handleMessage
      (fun p => if p = ['f'] then some ['a', 'b', 'c', 'd', 'e', 'f', 'g', 'h', 'i', 'j']
        else none) (['5'] ++ ',' :: (['1'] ++ ',' :: ['f'])) =
      .spawned ⟨5, 1, ['f'],
        position ['a', 'b', 'c', 'd', 'e', 'f', 'g', 'h', 'i', 'j'].length 5 1,
        runBytesToSend ['a', 'b', 'c', 'd', 'e', 'f', 'g', 'h', 'i', 'j'].length 5 1⟩ :=
  (no_invalid_input_error
    (fun p => if p = ['f'] then some ['a', 'b', 'c', 'd', 'e', 'f', 'g', 'h', 'i', 'j']
      else none) ['5'] ['1'] ['f'] ['a', 'b', 'c', 'd', 'e', 'f', 'g', 'h', 'i', 'j'] 5 1
    (by decide) (by decide) (by decide) (by decide) (by decide) (by decide) (by decide)).1

/-- C9, at the failing input: the request `1,1,f` on a file of 10 bytes is
dispatched with position 10 and length 10. The header announces 10 bytes, the
first `file.read` delivers nothing, the loop is left by `break`, and the worker
reports completion with 0 of 10 bytes sent, whatever the later `send` outcomes. -/
theorem sendFile_completes_after_empty_read :
    handleMessage
      (fun p => if p = ['f'] then some ['a', 'b', 'c', 'd', 'e', 'f', 'g', 'h', 'i', 'j']
        else none) (request 1 1 ['f']) = .spawned ⟨1, 1, ['f'], 10, 10⟩ ∧
    ∀ rs : List SendResult,
      sendFile
        (fun p => if p = ['f'] then some ['a', 'b', 'c', 'd', 'e', 'f', 'g', 'h', 'i', 'j']
          else none) (⟨19, 0⟩ :: rs) ⟨1, 1, ['f'], 10, 10⟩ = (.completed 0 10, []) := by
  refine ⟨by decide, ?_⟩
  intro rs
  simp [sendFile, sendLoop, bytesToSend, wrapInt, toU64, subU64]

/-- C10 as stated fails: with a file of 2 bytes and 3 workers, worker 0 gets
the offset 0, not the offset 2 (the file size); its length is 0. -/
theorem small_file_offset_is_zero :
    offset 2 3 0 = 0 ∧ offset 2 3 0 ≠ 2 ∧ length 2 3 0 = 0 := by
  decide

/-- C10 as amended: when `fileSize < workerCount`, every worker other than the
last gets the offset 0 and the length 0, the last worker gets the offset 0 and
the whole file; and the request of each worker is dispatched to a transfer
worker with that plan, none is closed because its range is empty. -/
theorem small_file_plan (fileSize n : Nat) (hlt : fileSize < n) (hint : n < 2 ^ 31) :
    (∀ i, i + 1 < n → offset fileSize n i = 0 ∧ length fileSize n i = 0) ∧
    offset fileSize n (n - 1) = 0 ∧ length fileSize n (n - 1) = fileSize ∧
    (∀ (files : Files) (f content : List Char) (i : Nat), i < n →
      files f = some content → content.length = fileSize →
      (request i n f).length ≤ 4095 →
      handleMessage files (request i n f) =
        .spawned ⟨i, n, f, 0, if i = n - 1 then fileSize else 0⟩) := by
  have hsize : fileSize < 2 ^ 64 := by omega
  have hq : fileSize / n = 0 := Nat.div_eq_of_lt hlt
  have hoff : ∀ i, i < n → offset fileSize n i = 0 := by
    intro i hi
    rw [offset_eq fileSize n i hsize hint hi, hq, Nat.mul_zero]
  have hlen : ∀ i, i < n → length fileSize n i = if i = n - 1 then fileSize else 0 := by
    intro i hi
    rw [length_eq fileSize n i hsize hint hi, hoff i hi, hq]
    simp
  refine ⟨?_, hoff _ (by omega), ?_, ?_⟩
  · intro i hi
    exact ⟨hoff i (by omega), by rw [hlen i (by omega), if_neg (by omega)]⟩
  · rw [hlen _ (by omega), if_pos rfl]
  · intro files f content i hi hf hc hl
    have h1 := (no_comma_spawn files (to_string i) (to_string n) f content (i : Int) (n : Int)
      (stoi_to_string i (by omega)) (stoi_to_string n hint)
      (not_mem_to_string i _ (by decide)) (not_mem_to_string n _ (by decide)) hl hf
      (by omega))
    rw [request, h1, hc]
    have e1 : position fileSize (i : Int) (n : Int) = 0 := hoff i hi
    have e2 : runBytesToSend fileSize (i : Int) (n : Int) =
        if i = n - 1 then fileSize else 0 := hlen i hi
    rw [e1, e2]

/-- Witness of C10 as amended: a file of 2 bytes and 3 workers. -/
theorem small_file_plan_witness :
    (2 < 3 ∧ 3 < 2 ^ 31) ∧ offset 2 3 2 = 0 ∧ length 2 3 2 = 2 :=
  ⟨by decide, (small_file_plan 2 3 (by decide) (by decide)).2.1,
    (small_file_plan 2 3 (by decide) (by decide)).2.2.1⟩

/-! ## Request-read loop -/

/-- Once the descriptor is closed every iteration is one more `recv` on it and
the loop is never left. -/
theorem readLoop_closed : ∀ (n : Nat) (s : ReadState), s.closed = true →
    readLoop n s = .again { s with recvOnClosed := s.recvOnClosed + n } := by
  intro n
  induction n with
  | zero => intro s _; rfl
  | succ n ih =>
    intro s hs
    have hstep : readStep s = .again { s with recvOnClosed := s.recvOnClosed + 1 } := by
      simp [readStep, hs]
    simp only [readLoop, hstep]
    rw [ih ⟨s.script, s.closed, s.recvOnClosed + 1⟩ hs]
    simp only [ReadStep.again.injEq, ReadState.mk.injEq, true_and]
    omega

/-- While every failed `recv` is a would-block within the 3000 ms, the loop is
left after at most one iteration per outcome and one more. -/
theorem readLoop_leaves_while_open : ∀ (script : List RequestRecv) (k : Nat),
    (∀ r ∈ script, ∀ wsa, r.outcome = .error wsa → wsa = WSAEWOULDBLOCK ∧ r.elapsed ≤ 3000) →
    ∀ s, readLoop (script.length + 1) ⟨script, false, k⟩ ≠ .again s := by
  intro script
  induction script with
  | nil => intro k _ s; simp [readLoop, readStep]
  | cons r rest ih =>
    intro k h s
    have hrest : ∀ x ∈ rest, ∀ wsa, x.outcome = .error wsa →
        wsa = WSAEWOULDBLOCK ∧ x.elapsed ≤ 3000 :=
      fun x hx => h x (by simp [hx])
    cases hr : r.outcome with
    | data bytes =>
      by_cases hb : bytes.take 4095 = []
      · simp [readLoop, readStep, hr, hb]
      · simp [readLoop, readStep, hr, hb]
    | error wsa =>
      obtain ⟨hw, ht⟩ := h r (by simp) wsa hr
      have hstep : readStep ⟨r :: rest, false, k⟩ = .again ⟨rest, false, k⟩ := by
        simp only [readStep, hr, hw]
        simp
        omega
      show readLoop (rest.length + 1 + 1) ⟨r :: rest, false, k⟩ ≠ .again s
      rw [readLoop, hstep]
      exact ih k hrest s

/-- C11, at the failing input: the first `recv` fails with `WSAECONNRESET`, or
with would-block at 3001 ms. The first iteration closes the descriptor, and
after `n` more iterations the loop is still running and has made `n` `recv`
calls on the closed descriptor: it never leaves, whatever `n`. -/
theorem request_read_spins_after_close :
    (∀ n, readRequest (n + 1) [⟨.error WSAECONNRESET, 0⟩] = .again ⟨[], true, n⟩) ∧
    (∀ n, readRequest (n + 1) [⟨.error WSAEWOULDBLOCK, 3001⟩] = .again ⟨[], true, n⟩) := by
  constructor
  · intro n
    have hstep : readStep ⟨[⟨.error WSAECONNRESET, 0⟩], false, 0⟩ = .again ⟨[], true, 0⟩ := by
      decide
    simp only [readRequest, readLoop, hstep]
    rw [readLoop_closed n _ rfl]
    simp
  · intro n
    have hstep : readStep ⟨[⟨.error WSAEWOULDBLOCK, 3001⟩], false, 0⟩ =
        .again ⟨[], true, 0⟩ := by
      decide
    simp only [readRequest, readLoop, hstep]
    rw [readLoop_closed n _ rfl]
    simp

/-! ## Connect with retries -/

/-- C12: for every sequence of `connect` outcomes the worker makes between 1
and 3 attempts; every attempt before the last one made has failed and, when the
loop is left connected, the last one succeeded; "Connection failed after
retries" is declared exactly when the first three attempts all fail, after 3
attempts; and a success on the first, second or third attempt, exactly then,
goes on to send the request. -/
theorem connect_retry_budget (outcomes : Nat → Bool) :
    1 ≤ (connectWithRetries outcomes).2.attempts ∧
    (connectWithRetries outcomes).2.attempts ≤ 3 ∧
    (∀ k, k + 1 < (connectWithRetries outcomes).2.attempts → outcomes k = false) ∧
    ((connectWithRetries outcomes).2.connected = true →
      outcomes ((connectWithRetries outcomes).2.attempts - 1) = true) ∧
    ((connectWithRetries outcomes).1 = .failedAfterRetries ↔
      outcomes 0 = false ∧ outcomes 1 = false ∧ outcomes 2 = false) ∧
    ((connectWithRetries outcomes).1 = .failedAfterRetries →
      (connectWithRetries outcomes).2.attempts = 3 ∧
      (connectWithRetries outcomes).2.connected = false) ∧
    ((connectWithRetries outcomes).1 = .sendsRequest ↔
      outcomes 0 = true ∨ outcomes 1 = true ∨ outcomes 2 = true) ∧
    ((connectWithRetries outcomes).1 = .sendsRequest →
      (connectWithRetries outcomes).2.connected = true) := by
  cases h0 : outcomes 0 <;> cases h1 : outcomes 1 <;> cases h2 : outcomes 2 <;>
    simp [connectWithRetries, connectLoop, h0, h1, h2] <;>
    (intro k hk
     have hk2 : k = 0 ∨ k = 1 := by omega
     rcases hk2 with rfl | rfl
     · exact h0
     · first | exact h1 | omega)

/-- A failed data send is reported as such, and the bytes that earlier `send`
calls accepted stay on the connection: 4 bytes to send, 2 accepted, then
`WSAECONNRESET`. -/
theorem sendFile_failed_send_keeps_wire :
    sendFile (fun p => if p = ['f'] then some ['a', 'b', 'c', 'd'] else none)
      [⟨18, 0⟩, ⟨2, 0⟩, ⟨-1, 10054⟩] ⟨0, 1, ['f'], 0, 4⟩ =
      (.dataSendFailed 10054, ['a', 'b']) := by
  simp [sendFile, sendLoop, sendBlock, bytesToSend, wrapInt, toU64, subU64, WSAEWOULDBLOCK]

end ThreadedFileTransfer
